import Mathlib

/-!
Shallow embedding of the Tetris game engine from `src/src/TetrisCanvas.jsx`
(React + Canvas Tetris). The embedding translates the engine functions —
`collides`, `mergePiece`, `clearLines`, `scoreFor`, the lock-time progression
update inside `stepDown`/`hardDrop`, `rotateMatrixCW`/`rotateMatrixCCW`,
`rotate` with its kick list, `bag` (Fisher–Yates), `getTopOffset`, `spawn`,
`doHold`, `hardDrop`, and the `KeyP` branch of the keyboard handler — into
executable Lean definitions, and proves the frozen claims about them.

Conventions:
- A grid cell is `Option String` (`none` models JS `null`, `some s` a color).
  JS truthiness of a `null | string` value is `cellFilled` (`""` is falsy).
- Piece occupancy matrices hold `Bool` (the JS matrices hold 0/1 and are only
  ever read through truthiness tests).
- Piece coordinates are `Int`, since the spawn row may be negative.
- React `useState` setters are modelled by explicit state passing on a
  `GameState` record; the `bag()` calls (the only entropy source) are
  modelled by passing the freshly drawn bag (or the index-choice function of
  the Fisher–Yates loop) as an explicit argument.
-/

namespace Tetris

/-- `COLS` from the source: number of playfield columns. -/
def COLS : Nat := 10

/-- `ROWS` from the source: number of playfield rows. -/
def ROWS : Nat := 20

/-- One playfield cell: `none` is JS `null`, `some s` a color string. -/
abbrev Cell := Option String

abbrev GRow := List Cell

abbrev Grid := List GRow

/-- JS truthiness of a `null | string` cell (`null` and `""` are falsy). -/
def cellFilled : Cell → Bool
  | none => false
  | some s => !s.isEmpty

/-- A piece occupancy matrix (JS rows of 0/1 values, read by truthiness). -/
abbrev PMatrix := List (List Bool)

inductive PieceKind
  | I
  | O
  | T
  | S
  | Z
  | J
  | L
deriving DecidableEq, Repr

structure Shape where
  m : PMatrix
  c : String
deriving DecidableEq, Repr

/-- The `TETROMINOES` catalog from the source (spawn matrices and colors). -/
def TETROMINOES : PieceKind → Shape
  | .I => ⟨[[true, true, true, true]], "#00FFFF"⟩
  | .O => ⟨[[true, true], [true, true]], "#F7D154"⟩
  | .T => ⟨[[false, true, false], [true, true, true]], "#B57AD2"⟩
  | .S => ⟨[[false, true, true], [true, true, false]], "#57D98C"⟩
  | .Z => ⟨[[true, true, false], [false, true, true]], "#F26D6D"⟩
  | .J => ⟨[[true, false, false], [true, true, true]], "#6DA8F2"⟩
  | .L => ⟨[[false, false, true], [true, true, true]], "#F2A96D"⟩

/-- `ORDER` from the source. -/
def ORDER : List PieceKind := [.I, .O, .T, .S, .Z, .J, .L]

/-- The active piece `{x, y, m, c, k}` from the source. -/
structure Piece where
  x : Int
  y : Int
  m : PMatrix
  c : String
  k : PieceKind
deriving DecidableEq, Repr

/-- Matrix read `m[y][x]`: out-of-range JS reads give `undefined`, which is
falsy, hence the `false` default. -/
def mget (m : PMatrix) (y x : Nat) : Bool := (m.getD y []).getD x false

/-- Grid read `b[r][c]` at `Nat` coordinates (rows and columns in range for
well-formed grids). -/
def cellOf (b : Grid) (r c : Nat) : Cell := (b.getD r []).getD c none

/-- Grid read `b[ny][nx]` at the `Int` coordinates used by `collides`; only
consulted there under the guards `0 ≤ ny`, `0 ≤ nx`. -/
def boardGet (b : Grid) (ny nx : Int) : Cell := cellOf b ny.toNat nx.toNat

/-- A well-formed playfield: `ROWS` rows of `COLS` cells. -/
def wfGrid (b : Grid) : Prop := b.length = ROWS ∧ ∀ row ∈ b, row.length = COLS

/-- `emptyBoard(ROWS, COLS)` from the source. -/
def emptyRow : GRow := List.replicate COLS none

def emptyBoard : Grid := List.replicate ROWS emptyRow

/-- `collides(b, p)` from the source: some occupied cell of the piece matrix
is out of bounds left/right/bottom, or sits (at a non-negative row) on a
filled grid cell. -/
def collides (b : Grid) (p : Piece) : Bool :=
  p.m.enum.any fun yrow =>
    yrow.2.enum.any fun xcell =>
      xcell.2 &&
        (decide (p.x + xcell.1 < 0) || decide ((COLS : Int) ≤ p.x + xcell.1) ||
          decide ((ROWS : Int) ≤ p.y + yrow.1) ||
          (decide (0 ≤ p.y + yrow.1) &&
            cellFilled (boardGet b (p.y + yrow.1) (p.x + xcell.1))))

/-- Write one grid cell (the assignment `nb[ny][nx] = p.c`). -/
def setCell (g : Grid) (r c : Nat) (v : Cell) : Grid :=
  g.set r ((g.getD r []).set c v)

/-- The body of `mergePiece`'s inner loop: `if (!p.m[y][x]) continue;` and
the guarded write `nb[ny][nx] = p.c` for one matrix cell, with `ny` the
absolute row of the enclosing outer iteration. -/
def mergeCellStep (col : String) (px ny : Int) (nb2 : Grid)
    (xcell : Nat × Bool) : Grid :=
  if xcell.2 then
    if 0 ≤ ny ∧ ny < (ROWS : Int) ∧
        0 ≤ px + xcell.1 ∧ px + xcell.1 < (COLS : Int) then
      setCell nb2 ny.toNat (px + xcell.1).toNat (some col)
    else nb2
  else nb2

/-- One outer iteration of `mergePiece`: the inner loop over a matrix row. -/
def mergeRowStep (col : String) (px py : Int) (nb : Grid)
    (yrow : Nat × List Bool) : Grid :=
  yrow.2.enum.foldl (mergeCellStep col px (py + yrow.1)) nb

/-- `mergePiece(b, p)` from the source: write every occupied, in-bounds,
non-negative-row cell of the piece with the piece color.  The source first
copies the board (`cloneBoard`) and then mutates the copy; in the pure
embedding the copy is the identity and the nested loops are folds. -/
def mergePiece (b : Grid) (p : Piece) : Grid :=
  p.m.enum.foldl (mergeRowStep p.c p.x p.y) b

/-- `b[y].every((c) => !!c)` from `clearLines`. -/
def rowFull (r : GRow) : Bool := r.all cellFilled

/-- `clearLines(b)` from the source: collect the indices of full rows,
drop those rows, and pad the grid back to `ROWS` rows with empty rows on
top; return the new grid and the number of cleared rows. -/
def clearLines (b : Grid) : Grid × Nat :=
  let rows := (List.range ROWS).filter fun y => rowFull (b.getD y [])
  if rows.length = 0 then (b, 0)
  else
    let nb := (b.enum.filter fun pr => !(rows.contains pr.1)).map Prod.snd
    (List.replicate (ROWS - nb.length) emptyRow ++ nb, rows.length)

/-- `scoreFor(n)` from the source; the source reads the `level` state
variable from its closure, here passed explicitly. -/
def scoreFor (level : Nat) (n : Nat) : Nat :=
  if n = 1 then 100 * level
  else if n = 2 then 300 * level
  else if n = 3 then 500 * level
  else if 4 ≤ n then 800 * level
  else 0

/-- The score/lines/level portion of the game state. -/
structure Progress where
  score : Nat
  lines : Nat
  level : Nat
deriving DecidableEq, Repr

/-- The progression update performed by the lock branch of `stepDown` (and
identically by `hardDrop`): when `cleared > 0`, add the cleared rows to
`lines`, add `scoreFor(cleared)` (read with the pre-lock `level`) to `score`,
and recompute `level` from the pre-lock `lines` plus `cleared`; when
`cleared = 0` nothing changes. -/
def lockProgress (pr : Progress) (cleared : Nat) : Progress :=
  if 0 < cleared then
    { score := pr.score + scoreFor pr.level cleared
      lines := pr.lines + cleared
      level := 1 + (pr.lines + cleared) / 10 }
  else pr

/-- `rotateMatrixCW(m)` from the source: the source fills a `w × h` result
with `res[x][h-1-y] = m[y][x]`; solved for the written cell this is
`res[i][j] = m[h-1-j][i]`, which is how the pure embedding generates it. -/
def rotateMatrixCW (m : PMatrix) : PMatrix :=
  (List.range (m.headD []).length).map fun i =>
    (List.range m.length).map fun j => mget m (m.length - 1 - j) i

/-- `rotateMatrixCCW(m)` from the source: the source fills a `w × h` result
with `res[w-1-x][y] = m[y][x]`, i.e. `res[i][j] = m[j][w-1-i]`. -/
def rotateMatrixCCW (m : PMatrix) : PMatrix :=
  (List.range (m.headD []).length).map fun i =>
    (List.range m.length).map fun j => mget m j ((m.headD []).length - 1 - i)

/-- The kick list `[0, -1, 1, -2, 2]` from `rotate`. -/
def KICKS : List Int := [0, -1, 1, -2, 2]

/-- The candidate piece `{...active, m: rotated, x: active.x + dx}` tested
inside `rotate`. -/
def candidate (p : Piece) (rotated : PMatrix) (dx : Int) : Piece :=
  { p with m := rotated, x := p.x + dx }

/-- The kick loop of `rotate`: return the first non-colliding candidate, or
the unchanged piece when every kick collides. -/
def rotateTry (b : Grid) (p : Piece) (rotated : PMatrix) : List Int → Piece
  | [] => p
  | dx :: rest =>
    if collides b (candidate p rotated dx) then rotateTry b p rotated rest
    else candidate p rotated dx

/-- `rotate(rotFn)` from the source (the piece and board being the `active`
and `board` state it reads). -/
def rotate (rotFn : PMatrix → PMatrix) (b : Grid) (p : Piece) : Piece :=
  rotateTry b p (rotFn p.m) KICKS

/-- The swap `[b[i], b[j]] = [b[j], b[i]]` inside `bag`; both indices are in
range whenever the source executes it. -/
def listSwap {α : Type} (l : List α) (i j : Nat) : List α :=
  match l[i]?, l[j]? with
  | some a, some bj => (l.set i bj).set j a
  | _, _ => l

/-- The Fisher–Yates loop of `bag`: `for (i = len-1; i > 0; i--)` swap
`b[i]` with `b[rand i]`, where `rand i` models
`Math.floor(Math.random() * (i + 1))` (a value in `[0, i]`). -/
def fyLoop (rand : Nat → Nat) : Nat → List PieceKind → List PieceKind
  | 0, b => b
  | i + 1, b => fyLoop rand i (listSwap b (i + 1) (rand (i + 1)))

/-- `bag()` from the source, with the entropy source made explicit. -/
def bag (rand : Nat → Nat) : List PieceKind := fyLoop rand (ORDER.length - 1) ORDER

/-- `getTopOffset(m)` from the source: index of the first row containing an
occupied cell, `0` when there is none. -/
def getTopOffset (m : PMatrix) : Nat :=
  match m.findIdx? (fun row => row.any id) with
  | some y => y
  | none => 0

/-- The piece built by `spawn` (and by the swap branch of `doHold`, whose
code is identical): centered start column, start row lifting the first
occupied matrix row to row 0. -/
def spawnPieceOf (k : PieceKind) : Piece :=
  { x := ((COLS - ((TETROMINOES k).m.headD []).length) / 2 : Nat)
    y := -(getTopOffset (TETROMINOES k).m : Int)
    m := (TETROMINOES k).m
    c := (TETROMINOES k).c
    k := k }

/-- The React state of the component, as one record. -/
structure GameState where
  board : Grid
  active : Option Piece
  queue : List PieceKind
  nextBag : List PieceKind
  running : Bool
  score : Nat
  lines : Nat
  level : Nat
  hold : Option PieceKind
  canHold : Bool
deriving DecidableEq, Repr

/-- `spawn()` from the source: pop the queue head (refilling from the next
bag when the rest is empty, `freshBag` standing for the `bag()` call),
spawn its piece, set `running` to `false` when the spawned piece collides
with the board (game over), and re-enable hold.  The source destructures a
never-empty queue; the `[]` branch is unreachable there. -/
def spawn (freshBag : List PieceKind) (s : GameState) : GameState :=
  match s.queue with
  | [] => s
  | head :: rest =>
    let piece := spawnPieceOf head
    { s with
      queue := if rest.length = 0 then s.nextBag else rest
      nextBag := if rest.length = 0 then freshBag else s.nextBag
      active := some piece
      running := if collides s.board piece then false else s.running
      canHold := true }

/-- The `KeyP` branch of the keyboard handler: ignored without an active
piece, otherwise `setRunning((r) => !r)` — unconditionally, regardless of
how `running` became `false`. -/
def pressKeyP (s : GameState) : GameState :=
  match s.active with
  | none => s
  | some _ => { s with running := !s.running }

/-- `doHold()` from the source: no-op when the hold lock is set or no piece
is active; store-and-respawn when the slot is empty; otherwise swap the held
kind straight in at its spawn placement, with no collision check. -/
def doHold (freshBag : List PieceKind) (s : GameState) : GameState :=
  if !s.canHold then s
  else
    match s.active with
    | none => s
    | some p =>
      match s.hold with
      | none =>
        let s1 := spawn freshBag { s with hold := some p.k }
        { s1 with canHold := false }
      | some heldK =>
        { s with
          hold := some p.k
          active := some (spawnPieceOf heldK)
          canHold := false }

/-- The `while (!collides(board, {...ghost, y: ghost.y + 1})) ghost.y++`
loop of `hardDrop`, returning the landing row and the step count `dist`.
Fuel bounds the loop; the source loop terminates within `ROWS + 4` steps
for every piece the game produces, and the fuel is irrelevant below it. -/
def dropSearch (b : Grid) (p : Piece) : Nat → Int × Nat
  | 0 => (p.y, 0)
  | fuel + 1 =>
    if collides b { p with y := p.y + 1 } then (p.y, 0)
    else
      let r := dropSearch b { p with y := p.y + 1 } fuel
      (r.1, r.2 + 1)

def DROPFUEL : Nat := ROWS + 4

/-- `hardDrop()` from the source: advance the piece to its landing row,
award `dist * 2`, lock it (merge, clear, progression update with the stale
`lines`/`level` closures), and spawn the next piece. -/
def hardDrop (freshBag : List PieceKind) (s : GameState) : GameState :=
  match s.active with
  | none => s
  | some p =>
    let r := dropSearch s.board p DROPFUEL
    let ghost := { p with y := r.1 }
    let cl := clearLines (mergePiece s.board ghost)
    let s1 := { s with
      active := some ghost
      score := s.score + r.2 * 2
      board := cl.1 }
    let s2 :=
      if 0 < cl.2 then
        { s1 with
          lines := s1.lines + cl.2
          score := s1.score + scoreFor s.level cl.2
          level := 1 + (s.lines + cl.2) / 10 }
      else s1
    spawn freshBag s2

/-! ### Spec-side definitions

These definitions follow the words of the specification (not the source);
they exist only to be compared against the source-derived definitions
above. -/

/-- Modelled from the spec's words: the transpose of a rectangular matrix —
row `i` of the transpose is column `i` of `m`.  (Stated via the generating
formula `(transposeSpec m)[i][j] = m[j][i]`, the textbook definition for a
rectangular `m`.) -/
def transposeSpec (m : PMatrix) : PMatrix :=
  (List.range (m.headD []).length).map fun i =>
    (List.range m.length).map fun j => mget m j i

/-- Modelled from the spec's words: clockwise rotation as
"transpose-and-reverse-rows". -/
def specRotCW (m : PMatrix) : PMatrix := (transposeSpec m).map List.reverse

/-- `m` is a rectangular `h × w` matrix. -/
def rect (m : PMatrix) (h w : Nat) : Prop :=
  m.length = h ∧ ∀ row ∈ m, row.length = w

/-- The piece covers grid position `(r, c)`: some occupied matrix cell maps
to it.  (Bounded quantifiers keep the predicate decidable; `mget` is `false`
out of range anyway.) -/
def coveredBy (p : Piece) (r c : Nat) : Prop :=
  ∃ yy, yy < p.m.length ∧ ∃ xx, xx < (p.m.getD yy []).length ∧
    mget p.m yy xx = true ∧ p.y + (yy : Int) = (r : Int) ∧ p.x + (xx : Int) = (c : Int)

instance (p : Piece) (r c : Nat) : Decidable (coveredBy p r c) := by
  unfold coveredBy
  infer_instance

instance (b : Grid) : Decidable (wfGrid b) := by
  unfold wfGrid
  infer_instance

instance (m : PMatrix) (h w : Nat) : Decidable (rect m h w) := by
  unfold rect
  infer_instance

/-! ### Concrete scenario data used by individual claims -/

/-- A horizontal domino piece held entirely above the visible area
(`y = -2`), with in-bounds columns. -/
def pAbove : Piece :=
  { x := 0, y := -2, m := [[true, true]], c := "#00FFFF", k := .I }

/-- A row with exactly one filled cell. -/
def partRow : GRow := emptyRow.set 0 (some "#FFFFFF")

/-- A fully filled playfield row. -/
def whiteRow : GRow := List.replicate COLS (some "#FFFFFF")

/-- A fully filled playfield. -/
def fullBoard : Grid := List.replicate ROWS whiteRow

/-- A playfield whose only filled cell is row 0, column 4 — exactly where
the spawned T-piece has its top cell, so spawning a T on it is game over. -/
def bGameOver : Grid :=
  (emptyRow.set 4 (some "#FFFFFF")) :: List.replicate (ROWS - 1) emptyRow

/-- Pre-spawn state used for the game-over scenario: a T-piece is next. -/
def sGameOver0 : GameState :=
  { board := bGameOver, active := none, queue := [.T], nextBag := ORDER,
    running := true, score := 0, lines := 0, level := 1,
    hold := none, canHold := true }

/-- A vertical I-piece (the CW rotation of the spawn I matrix) flush against
the right wall (`x = COLS - 1 = 9`). -/
def pIvert : Piece :=
  { x := 9, y := 2, m := [[true], [true], [true], [true]], c := "#00FFFF", k := .I }

/-- Pre-spawn state for the O-piece hard-drop scenario: empty board, an
O-piece next in the queue. -/
def sDropO0 : GameState :=
  { board := emptyBoard, active := none, queue := [.O], nextBag := ORDER,
    running := true, score := 0, lines := 0, level := 1,
    hold := none, canHold := true }

/-- A bottom row holding the two O-piece cells at the centered spawn
columns 4 and 5. -/
def oRow : GRow := ((List.replicate COLS (none : Cell)).set 4 (some "#F7D154")).set 5 (some "#F7D154")

/-- The board the O-piece hard drop actually produces: empty except for a
2×2 block at rows 18–19, columns 4–5. -/
def expectedOGrid : Grid := List.replicate 18 emptyRow ++ [oRow, oRow]

/-- An O-piece sitting at its landing position on an empty board (spawn
columns 4–5, rows 18–19). -/
def pO18 : Piece := { spawnPieceOf .O with y := 18 }

/-- The grid of C2's concrete instance: rows 3 and 7 fully filled, every
other row partially filled. -/
def gRows37 : Grid :=
  (List.range ROWS).map fun y => if y = 3 ∨ y = 7 then whiteRow else partRow

/-- A blocked state for the hold claim: full board, active T-piece, held I,
hold lock not set. -/
def sHoldBlocked : GameState :=
  { board := fullBoard, active := some (spawnPieceOf .T), queue := ORDER,
    nextBag := ORDER, running := true, score := 0, lines := 0, level := 1,
    hold := some .I, canHold := true }

/-! ### General lemmas -/

/-- Pulling the element at index `m` to the front (leaving `x` in its
place) permutes `x :: xs`. -/
theorem perm_get_cons_set {α : Type} (xs : List α) (m : Nat) (x : α)
    (h : m < xs.length) :
    List.Perm (xs.get ⟨m, h⟩ :: xs.set m x) (x :: xs) := by
  induction xs generalizing m with
  | nil => simp at h
  | cons y ys ih =>
    cases m with
    | zero => simpa using List.Perm.swap x y ys
    | succ k =>
      have hk : k < ys.length := by simpa using h
      have step1 : List.Perm (ys.get ⟨k, hk⟩ :: y :: ys.set k x)
          (y :: ys.get ⟨k, hk⟩ :: ys.set k x) := List.Perm.swap y (ys.get ⟨k, hk⟩) _
      have step2 : List.Perm (y :: ys.get ⟨k, hk⟩ :: ys.set k x) (y :: x :: ys) :=
        List.Perm.cons y (ih k hk)
      have step3 : List.Perm (y :: x :: ys) (x :: y :: ys) := List.Perm.swap x y ys
      simpa using (step1.trans step2).trans step3

/-- Exchanging the entries at two valid indices permutes the list. -/
theorem set_set_swap_perm {α : Type} (l : List α) (i j : Nat)
    (hi : i < l.length) (hj : j < l.length) :
    List.Perm ((l.set i (l.get ⟨j, hj⟩)).set j (l.get ⟨i, hi⟩)) l := by
  induction l generalizing i j with
  | nil => simp at hi
  | cons y ys ih =>
    cases i with
    | zero =>
      cases j with
      | zero => simp
      | succ k =>
        have hk : k < ys.length := by simpa using hj
        simpa using perm_get_cons_set ys k y hk
    | succ a =>
      cases j with
      | zero =>
        have ha : a < ys.length := by simpa using hi
        simpa using perm_get_cons_set ys a y ha
      | succ bj =>
        have ha : a < ys.length := by simpa using hi
        have hb : bj < ys.length := by simpa using hj
        simpa using List.Perm.cons y (ih a bj ha hb)

/-- `listSwap` at valid indices is the double-`set` swap. -/
theorem listSwap_eq {α : Type} (l : List α) (i j : Nat)
    (hi : i < l.length) (hj : j < l.length) :
    listSwap l i j = (l.set i (l.get ⟨j, hj⟩)).set j (l.get ⟨i, hi⟩) := by
  unfold listSwap
  rw [List.getElem?_eq_getElem hi, List.getElem?_eq_getElem hj]
  rfl

theorem listSwap_length {α : Type} (l : List α) (i j : Nat) :
    (listSwap l i j).length = l.length := by
  unfold listSwap
  cases h1 : l[i]? <;> cases h2 : l[j]? <;> simp

/-- `listSwap` at valid indices permutes the list. -/
theorem listSwap_perm {α : Type} (l : List α) (i j : Nat)
    (hi : i < l.length) (hj : j < l.length) :
    List.Perm (listSwap l i j) l := by
  rw [listSwap_eq l i j hi hj]
  exact set_set_swap_perm l i j hi hj

/-- Every pass of the Fisher–Yates loop with in-range index draws permutes
its input. -/
theorem fyLoop_perm (rand : Nat → Nat) (hr : ∀ n, rand n ≤ n) :
    ∀ (i : Nat) (b : List PieceKind), i < b.length →
      List.Perm (fyLoop rand i b) b := by
  intro i
  induction i with
  | zero => intro b _; exact List.Perm.refl b
  | succ k ih =>
    intro b h
    have hjlt : rand (k + 1) < b.length := by
      have := hr (k + 1); omega
    have hswap := listSwap_perm b (k + 1) (rand (k + 1)) h hjlt
    have hlen := listSwap_length b (k + 1) (rand (k + 1))
    have hk : k < (listSwap b (k + 1) (rand (k + 1))).length := by omega
    exact (ih _ hk).trans hswap

/-- `getD` inside the length is `getElem`. -/
theorem getD_of_lt {α : Type} (l : List α) (i : Nat) (d : α) (h : i < l.length) :
    l.getD i d = l[i] := by
  simp [List.getD, List.getElem?_eq_getElem h]

/-- `getD` beyond the length is the default. -/
theorem getD_of_le {α : Type} (l : List α) (i : Nat) (d : α) (h : l.length ≤ i) :
    l.getD i d = d := by
  simp [List.getD, List.getElem?_eq_none h]

/-- Reversing a map over `range n` re-indexes by `n - 1 - j`. -/
theorem reverse_map_range {α : Type} (n : Nat) (f : Nat → α) :
    ((List.range n).map f).reverse = (List.range n).map fun j => f (n - 1 - j) := by
  apply List.ext_getElem
  · simp
  · intro i h1 h2
    have hi : i < n := by simpa using h2
    have hlt : n - 1 - i < n := by omega
    rw [List.getElem_reverse]
    simp [hi, hlt]

/-- `mget` at in-range indices reads the actual entry. -/
theorem mget_of_lt (m : PMatrix) (i j : Nat) (hi : i < m.length)
    (hj : j < m[i].length) : mget m i j = m[i][j] := by
  unfold mget
  rw [getD_of_lt m i [] hi, getD_of_lt]

/-- A rectangular matrix is regenerated by its `mget` table. -/
theorem rect_reconstruct (m : PMatrix) (h w : Nat) (hr : rect m h w) :
    m = (List.range h).map fun i => (List.range w).map fun j => mget m i j := by
  rcases hr with ⟨hlen, hrow⟩
  apply List.ext_getElem
  · simpa using hlen
  · intro i h1 h2
    have hi : i < m.length := h1
    have hih : i < h := by omega
    have hiw : m[i].length = w := hrow m[i] (List.getElem_mem hi)
    rw [show ((List.range h).map fun i => (List.range w).map fun j => mget m i j)[i]
          = (List.range w).map (fun j => mget m i j) from by simp [hih]]
    apply List.ext_getElem
    · simp [hiw]
    · intro j hj1 hj2
      have hjw : j < m[i].length := hj1
      have hjww : j < w := by omega
      rw [show ((List.range w).map fun j => mget m i j)[j] = mget m i j from by
        simp [hjww]]
      rw [mget_of_lt m i j hi hjw]

/-- The source's clockwise rotation is the spec's
transpose-and-reverse-rows transform (an index identity, valid for every
matrix). -/
theorem rotCW_eq_spec (m : PMatrix) : rotateMatrixCW m = specRotCW m := by
  unfold rotateMatrixCW specRotCW transposeSpec
  rw [List.map_map]
  congr 1
  funext i
  simpa using (reverse_map_range m.length (fun j => mget m j i)).symm

/-- `mget` on a range-generated matrix is the generating function. -/
theorem mget_genMatrix (f : Nat → Nat → Bool) (H W j t : Nat)
    (hj : j < W) (ht : t < H) :
    mget ((List.range W).map fun i => (List.range H).map fun j2 => f i j2) j t
      = f j t := by
  unfold mget
  have hb : j < ((List.range W).map fun i =>
      (List.range H).map fun j2 => f i j2).length := by simpa using hj
  rw [getD_of_lt _ j [] hb]
  rw [show ((List.range W).map fun i => (List.range H).map fun j2 => f i j2)[j]
      = (List.range H).map (fun j2 => f j j2) from by simp [hj]]
  rw [getD_of_lt _ t false (by simpa using ht)]
  simp [ht]

/-- On nonempty rectangular matrices, the source's counter-clockwise
rotation inverts its clockwise rotation. -/
theorem rotCCW_rotCW (m : PMatrix) (h w : Nat) (hh : 0 < h) (hw : 0 < w)
    (hr : rect m h w) : rotateMatrixCCW (rotateMatrixCW m) = m := by
  have hlen : m.length = h := hr.1
  have hhead : (m.headD []).length = w := by
    cases m with
    | nil => simp at hlen; omega
    | cons r rest => exact hr.2 r (by simp)
  have hA : rotateMatrixCW m =
      (List.range w).map fun i => (List.range h).map fun j => mget m (h - 1 - j) i := by
    unfold rotateMatrixCW
    rw [hhead, hlen]
  have hAlen : (rotateMatrixCW m).length = w := by rw [hA]; simp
  obtain ⟨w', rfl⟩ : ∃ w', w = w' + 1 := ⟨w - 1, by omega⟩
  have hAhead : ((rotateMatrixCW m).headD []).length = h := by
    rw [hA, List.range_succ_eq_map]
    simp
  have hmgetA : ∀ j t, j < w' + 1 → t < h →
      mget (rotateMatrixCW m) j t = mget m (h - 1 - t) j := by
    intro j t hj ht
    rw [hA]
    exact mget_genMatrix (fun i j2 => mget m (h - 1 - j2) i) h (w' + 1) j t hj ht
  conv_rhs => rw [rect_reconstruct m h (w' + 1) hr]
  unfold rotateMatrixCCW
  rw [hAhead, hAlen]
  apply List.map_congr_left
  intro i hi
  have hih : i < h := by simpa using hi
  apply List.map_congr_left
  intro j hj
  have hjw : j < w' + 1 := by simpa using hj
  rw [hmgetA j (h - 1 - i) hjw (by omega)]
  rw [show h - 1 - (h - 1 - i) = i from by omega]

/-- The kick loop returns the first non-colliding candidate, or the
unchanged piece when there is none. -/
theorem rotateTry_eq_find (b : Grid) (p : Piece) (rot : PMatrix) :
    ∀ ks : List Int,
      rotateTry b p rot ks =
        ((ks.find? fun dx => !(collides b (candidate p rot dx))).elim
          p (candidate p rot)) := by
  intro ks
  induction ks with
  | nil => rfl
  | cons dx rest ih =>
    show (if collides b (candidate p rot dx) then rotateTry b p rot rest
      else candidate p rot dx) = _
    by_cases hc : collides b (candidate p rot dx) = true
    · rw [if_pos hc, ih, List.find?_cons_of_neg]
      simp [hc]
    · have hc' : collides b (candidate p rot dx) = false := by
        revert hc; cases collides b (candidate p rot dx) <;> simp
      rw [if_neg hc, List.find?_cons_of_pos]
      · rfl
      · simp [hc']

/-! ### Claim C8 — every bag is a permutation of the 7 kinds -/

/-- C8: whatever in-range values the entropy source yields, `bag` returns a
permutation of `ORDER`, hence a list of 7 kinds in which each of the 7
piece kinds occurs exactly once — so 7 consecutive draws from one bag see
every kind exactly once. -/
theorem claim_C8_bag_is_permutation :
    ∀ rand : Nat → Nat, (∀ n, rand n ≤ n) →
      List.Perm (bag rand) ORDER ∧ (bag rand).length = 7 ∧
        ∀ k : PieceKind, (bag rand).count k = 1 := by
  intro rand hr
  have hperm : List.Perm (bag rand) ORDER :=
    fyLoop_perm rand hr (ORDER.length - 1) ORDER (by decide)
  refine ⟨hperm, ?_, ?_⟩
  · rw [hperm.length_eq]; rfl
  · intro k
    rw [List.perm_iff_count.mp hperm]
    cases k <;> rfl

/-- Witness for C8 at the concrete entropy source that always draws 0 (a
legal draw at every index): each kind occurs exactly once in the resulting
bag. -/
theorem claim_C8_bag_is_permutation_witness :
    (∀ n : Nat, (fun _ => 0) n ≤ n) ∧
      (∀ k : PieceKind, (bag (fun _ => 0)).count k = 1) ∧
      bag (fun _ => 0) = [.O, .T, .S, .Z, .J, .L, .I] :=
  ⟨fun n => Nat.zero_le n,
   (claim_C8_bag_is_permutation (fun _ => 0) (fun n => Nat.zero_le n)).2.2,
   by decide⟩

/-- `any` over an enumerated list, restated by index. -/
theorem any_enum_iff {α : Type} (l : List α) (d : α) (f : Nat → α → Bool) :
    (l.enum.any fun pr => f pr.1 pr.2) = true ↔
      ∃ i, i < l.length ∧ f i (l.getD i d) = true := by
  rw [List.any_eq_true]
  constructor
  · rintro ⟨pr, hmem, hf⟩
    have h1 : l[pr.1]? = some pr.2 := List.mem_enum_iff_getElem?.mp hmem
    have h2 : pr.1 < l.length := by
      by_contra hc
      rw [List.getElem?_eq_none (by omega)] at h1
      exact Option.noConfusion h1
    have h3 : l[pr.1] = pr.2 := by
      have h4 := List.getElem?_eq_getElem h2
      rw [h4] at h1
      exact Option.some.inj h1
    exact ⟨pr.1, h2, by rw [getD_of_lt l pr.1 d h2, h3]; exact hf⟩
  · rintro ⟨i, hi, hf⟩
    refine ⟨(i, l[i]), ?_, ?_⟩
    · exact List.mem_enum_iff_getElem?.mpr (List.getElem?_eq_getElem hi)
    · rw [getD_of_lt l i d hi] at hf
      exact hf

/-- `collides` unfolded to a bounded existential over matrix indices. -/
theorem collides_iff_aux (b : Grid) (p : Piece) :
    collides b p = true ↔
      ∃ yy, yy < p.m.length ∧ ∃ xx, xx < (p.m.getD yy []).length ∧
        (mget p.m yy xx &&
          (decide (p.x + (xx : Int) < 0) || decide ((COLS : Int) ≤ p.x + (xx : Int)) ||
            decide ((ROWS : Int) ≤ p.y + (yy : Int)) ||
            (decide (0 ≤ p.y + (yy : Int)) &&
              cellFilled (boardGet b (p.y + (yy : Int)) (p.x + (xx : Int)))))) = true := by
  refine Iff.trans (any_enum_iff p.m [] fun yy row => row.enum.any fun xcell =>
    xcell.2 &&
      (decide (p.x + (xcell.1 : Int) < 0) || decide ((COLS : Int) ≤ p.x + (xcell.1 : Int)) ||
        decide ((ROWS : Int) ≤ p.y + (yy : Int)) ||
        (decide (0 ≤ p.y + (yy : Int)) &&
          cellFilled (boardGet b (p.y + (yy : Int)) (p.x + (xcell.1 : Int)))))) ?_
  apply exists_congr
  intro yy
  apply and_congr_right
  intro hyy
  exact Iff.trans (any_enum_iff (p.m.getD yy []) false fun xx v =>
    v &&
      (decide (p.x + (xx : Int) < 0) || decide ((COLS : Int) ≤ p.x + (xx : Int)) ||
        decide ((ROWS : Int) ≤ p.y + (yy : Int)) ||
        (decide (0 ≤ p.y + (yy : Int)) &&
          cellFilled (boardGet b (p.y + (yy : Int)) (p.x + (xx : Int)))))) Iff.rfl

/-- `collides` as the claim's quantified condition. -/
theorem collides_iff_prop (b : Grid) (p : Piece) :
    collides b p = true ↔
      ∃ yy xx : Nat, mget p.m yy xx = true ∧
        (p.x + (xx : Int) < 0 ∨ (COLS : Int) ≤ p.x + (xx : Int) ∨
          (ROWS : Int) ≤ p.y + (yy : Int) ∨
          (0 ≤ p.y + (yy : Int) ∧
            cellFilled (boardGet b (p.y + (yy : Int)) (p.x + (xx : Int))) = true)) := by
  refine Iff.trans (collides_iff_aux b p) ?_
  constructor
  · rintro ⟨yy, hyy, xx, hxx, hb⟩
    rw [Bool.and_eq_true] at hb
    refine ⟨yy, xx, hb.1, ?_⟩
    have hcond := hb.2
    simpa [or_assoc] using hcond
  · rintro ⟨yy, xx, hm, hcond⟩
    have hyy : yy < p.m.length := by
      by_contra hc
      push_neg at hc
      unfold mget at hm
      rw [getD_of_le p.m yy [] hc] at hm
      simp at hm
    have hxx : xx < (p.m.getD yy []).length := by
      by_contra hc
      push_neg at hc
      unfold mget at hm
      rw [getD_of_le _ xx false hc] at hm
      exact Bool.noConfusion hm
    refine ⟨yy, hyy, xx, hxx, ?_⟩
    rw [Bool.and_eq_true]
    exact ⟨hm, by simpa [or_assoc] using hcond⟩

/-- Filtering `range l.length` by a property of the indexed entries is the
index projection of filtering the enumerated list. -/
theorem range_filter_getD_eq {α : Type} (q : α → Bool) (d : α) (l : List α) :
    (List.range l.length).filter (fun y => q (l.getD y d)) =
      (l.enum.filter fun pr => q pr.2).map Prod.fst := by
  induction l using List.reverseRecOn with
  | nil => rfl
  | append_singleton xs a ih =>
    have hlen : (xs ++ [a]).length = xs.length + 1 := by simp
    rw [hlen, List.range_succ, List.filter_append]
    have hcongr : ((List.range xs.length).filter fun y => q ((xs ++ [a]).getD y d))
        = (List.range xs.length).filter fun y => q (xs.getD y d) := by
      apply List.filter_congr
      intro y hy
      have hylt : y < xs.length := List.mem_range.mp hy
      rw [show (xs ++ [a]).getD y d = xs.getD y d from by
        simp [List.getD, List.getElem?_append, hylt]]
    rw [hcongr, ih, List.enum_append,
      show List.enumFrom xs.length [a] = [(xs.length, a)] from rfl,
      List.filter_append, List.map_append]
    have hgd : (xs ++ [a]).getD xs.length d = a := by simp [List.getD]
    by_cases hq : q a = true <;>
      simp [List.filter_cons, List.filter_nil, hgd, hq]

/-- Filtering the enumerated list by a property of the entries and dropping
the indices is plain filtering. -/
theorem enum_filter_map_snd {α : Type} (q : α → Bool) (l : List α) :
    (l.enum.filter fun pr => q pr.2).map Prod.snd = l.filter q := by
  have h1 : (l.enum.map Prod.snd).filter q
      = (l.enum.filter fun pr => q pr.2).map Prod.snd := by
    rw [List.filter_map]
    rfl
  have h2 : l.enum.map Prod.snd = l := by simp
  rw [h2] at h1
  exact h1.symm

/-- Membership of an index in the full-row index list decides exactly by
fullness of the row sitting at that index. -/
theorem rows_contains_eq (l : List GRow) (i : Nat) (row : GRow)
    (hmem : l[i]? = some row) :
    (((List.range l.length).filter fun y => rowFull (l.getD y [])).contains i)
      = rowFull row := by
  have hi : i < l.length := by
    by_contra hc
    rw [List.getElem?_eq_none (by omega)] at hmem
    exact Option.noConfusion hmem
  have hg : l.getD i [] = row := by
    rw [getD_of_lt l i [] hi]
    have h4 := List.getElem?_eq_getElem hi
    rw [h4] at hmem
    exact Option.some.inj hmem
  by_cases hf : rowFull row = true
  · rw [hf]
    have hmem2 : i ∈ (List.range l.length).filter fun y => rowFull (l.getD y []) :=
      List.mem_filter.mpr ⟨List.mem_range.mpr hi, by rw [hg]; exact hf⟩
    exact List.elem_iff.mpr hmem2
  · have hf' : rowFull row = false := by
      revert hf; cases rowFull row <;> simp
    rw [hf']
    have hnot : i ∉ (List.range l.length).filter fun y => rowFull (l.getD y []) := by
      intro hmem2
      have h2 := (List.mem_filter.mp hmem2).2
      rw [hg, hf'] at h2
      exact Bool.noConfusion h2
    cases hc2 : (((List.range l.length).filter fun y =>
        rowFull (l.getD y [])).contains i)
    · rfl
    · exact absurd (List.elem_iff.mp hc2) hnot

/-- The surviving rows of `clearLines` are exactly the non-full rows, in
order. -/
theorem clearLines_kept_rows (l : List GRow) :
    ((l.enum.filter fun pr =>
        !(((List.range l.length).filter fun y =>
          rowFull (l.getD y [])).contains pr.1)).map Prod.snd)
      = l.filter fun row => !(rowFull row) := by
  have hcong : (l.enum.filter fun pr =>
      !(((List.range l.length).filter fun y => rowFull (l.getD y [])).contains pr.1))
      = l.enum.filter fun pr => !(rowFull pr.2) := by
    apply List.filter_congr
    intro pr hmem
    rw [rows_contains_eq l pr.1 pr.2 (List.mem_enum_iff_getElem?.mp hmem)]
  rw [hcong, enum_filter_map_snd (fun row => !(rowFull row)) l]

/-! ### Claim C1 — collision predicate characterization -/

/-- C1: `collides` is true exactly when some occupied cell of the piece
matrix, at its absolute coordinates, leaves the columns `[0, COLS)`, lies at
a row `≥ ROWS`, or lies at a row `≥ 0` whose grid cell is filled — and a
piece all of whose occupied cells sit at in-bounds columns and negative rows
never collides, whatever the grid holds. -/
theorem claim_C1_collides_characterization :
    (∀ (b : Grid) (p : Piece),
        collides b p = true ↔
          ∃ yy xx : Nat, mget p.m yy xx = true ∧
            (p.x + (xx : Int) < 0 ∨ (COLS : Int) ≤ p.x + (xx : Int) ∨
              (ROWS : Int) ≤ p.y + (yy : Int) ∨
              (0 ≤ p.y + (yy : Int) ∧
                cellFilled (boardGet b (p.y + (yy : Int)) (p.x + (xx : Int))) = true))) ∧
    (∀ (b : Grid) (p : Piece),
        (∀ yy, yy < p.m.length → ∀ xx, xx < (p.m.getD yy []).length →
            mget p.m yy xx = true →
            0 ≤ p.x + (xx : Int) ∧ p.x + (xx : Int) < (COLS : Int) ∧
              p.y + (yy : Int) < 0) →
        collides b p = false) := by
  refine ⟨collides_iff_prop, ?_⟩
  intro b p hsafe
  cases hcol : collides b p
  · rfl
  · exfalso
    obtain ⟨yy, hyy, xx, hxx, hb⟩ := (collides_iff_aux b p).mp hcol
    rw [Bool.and_eq_true] at hb
    obtain ⟨hsx, hsxc, hsneg⟩ := hsafe yy hyy xx hxx hb.1
    have hcond := hb.2
    simp only [Bool.or_eq_true, Bool.and_eq_true, decide_eq_true_eq, or_assoc] at hcond
    have hC : (COLS : Int) = 10 := rfl
    have hR : (ROWS : Int) = 20 := rfl
    rcases hcond with h | h | h | ⟨h, _⟩ <;> omega

/-- Witness for C1: on a fully filled board, a horizontal domino held
entirely above the visible area (row `-2`, columns 0–1) does not collide,
and the iff instance holds for it. -/
theorem claim_C1_collides_characterization_witness :
    collides fullBoard pAbove = false ∧
    (collides emptyBoard pAbove = true ↔
      ∃ yy xx : Nat, mget pAbove.m yy xx = true ∧
        (pAbove.x + (xx : Int) < 0 ∨ (COLS : Int) ≤ pAbove.x + (xx : Int) ∨
          (ROWS : Int) ≤ pAbove.y + (yy : Int) ∨
          (0 ≤ pAbove.y + (yy : Int) ∧
            cellFilled (boardGet emptyBoard (pAbove.y + (yy : Int))
              (pAbove.x + (xx : Int))) = true))) :=
  ⟨claim_C1_collides_characterization.2 fullBoard pAbove (by decide),
   claim_C1_collides_characterization.1 emptyBoard pAbove⟩

/-- The effect of `setCell` on a single cell read: the written value at the
written (in-range) position, the old value everywhere else. -/
theorem cellOf_setCell (g : Grid) (r c : Nat) (v : Cell) (r' c' : Nat) :
    cellOf (setCell g r c v) r' c' =
      if r = r' ∧ c = c' ∧ r < g.length ∧ c < (g.getD r []).length then v
      else cellOf g r' c' := by
  unfold cellOf setCell
  by_cases hrr : r = r'
  · subst hrr
    by_cases hrl : r < g.length
    · have hrl2 : r < (g.set r ((g.getD r []).set c v)).length := by simpa using hrl
      rw [getD_of_lt _ r _ hrl2, List.getElem_set_self hrl2]
      by_cases hcc : c = c'
      · subst hcc
        by_cases hcl : c < (g.getD r []).length
        · have hcl2 : c < ((g.getD r []).set c v).length := by simpa using hcl
          rw [getD_of_lt _ c _ hcl2, List.getElem_set_self hcl2]
          rw [if_pos ⟨rfl, rfl, hrl, hcl⟩]
        · rw [List.set_eq_of_length_le (by omega)]
          rw [if_neg (by tauto)]
      · rw [show ((g.getD r []).set c v).getD c' none
            = (g.getD r []).getD c' none from by
          simp [List.getD, List.getElem?_set, hcc]]
        rw [if_neg (by tauto)]
    · rw [List.set_eq_of_length_le (by omega)]
      rw [if_neg (by tauto)]
  · rw [show (g.set r ((g.getD r []).set c v)).getD r' []
        = g.getD r' [] from by
      simp [List.getD, List.getElem?_set, hrr]]
    rw [if_neg (by tauto)]

/-- `setCell` keeps the playfield well-formed. -/
theorem wf_setCell (g : Grid) (r c : Nat) (v : Cell) (h : wfGrid g) :
    wfGrid (setCell g r c v) := by
  obtain ⟨h1, h2⟩ := h
  by_cases hrl : r < g.length
  · constructor
    · simp [setCell, h1]
    · intro row hrow
      rcases List.mem_or_eq_of_mem_set hrow with hmem | heq
      · exact h2 row hmem
      · subst heq
        rw [List.length_set, getD_of_lt _ r _ hrl]
        exact h2 _ (List.getElem_mem hrl)
  · rw [show setCell g r c v = g from List.set_eq_of_length_le (by omega)]
    exact ⟨h1, h2⟩

/-- For a well-formed playfield every visible row has `COLS` cells. -/
theorem wf_row_len (g : Grid) (h : wfGrid g) (r : Nat) (hr : r < ROWS) :
    (g.getD r []).length = COLS := by
  obtain ⟨h1, h2⟩ := h
  have hrl : r < g.length := by omega
  rw [getD_of_lt _ r _ hrl]
  exact h2 _ (List.getElem_mem hrl)

/-- A fold whose step preserves well-formedness preserves it. -/
theorem wf_foldl {β : Type} (step : Grid → β → Grid)
    (hstep : ∀ g x, wfGrid g → wfGrid (step g x)) :
    ∀ (l : List β) (g : Grid), wfGrid g → wfGrid (l.foldl step g) := by
  intro l
  induction l with
  | nil => intro g hg; exact hg
  | cons x xs ih =>
    intro g hg
    rw [List.foldl_cons]
    exact ih _ (hstep g x hg)

/-- `mergeCellStep` keeps the playfield well-formed. -/
theorem wf_mergeCellStep (col : String) (px ny : Int) (g : Grid)
    (xcell : Nat × Bool) (h : wfGrid g) :
    wfGrid (mergeCellStep col px ny g xcell) := by
  unfold mergeCellStep
  split
  · split
    · exact wf_setCell _ _ _ _ h
    · exact h
  · exact h

/-- `mergeRowStep` keeps the playfield well-formed. -/
theorem wf_mergeRowStep (col : String) (px py : Int) (g : Grid)
    (yrow : Nat × List Bool) (h : wfGrid g) :
    wfGrid (mergeRowStep col px py g yrow) :=
  wf_foldl _ (fun g2 x hg => wf_mergeCellStep col px (py + yrow.1) g2 x hg) _ g h

/-- `mergeCellStep` on an occupied, in-bounds cell writes it. -/
theorem mergeCellStep_write (col : String) (px ny : Int) (g : Grid)
    (k : Nat) (bcell : Bool) (hb : bcell = true)
    (hbounds : 0 ≤ ny ∧ ny < (ROWS : Int) ∧
      0 ≤ px + (k : Int) ∧ px + (k : Int) < (COLS : Int)) :
    mergeCellStep col px ny g (k, bcell)
      = setCell g ny.toNat (px + (k : Int)).toNat (some col) := by
  subst hb
  unfold mergeCellStep
  rw [if_pos rfl, if_pos hbounds]

/-- `mergeCellStep` on an unoccupied cell is the identity. -/
theorem mergeCellStep_skip (col : String) (px ny : Int) (g : Grid) (k : Nat) :
    mergeCellStep col px ny g (k, false) = g := by
  unfold mergeCellStep
  rw [if_neg]
  exact Bool.noConfusion

/-- `mergeCellStep` outside the write bounds is the identity. -/
theorem mergeCellStep_oob (col : String) (px ny : Int) (g : Grid)
    (k : Nat) (bcell : Bool)
    (h : ¬(0 ≤ ny ∧ ny < (ROWS : Int) ∧
      0 ≤ px + (k : Int) ∧ px + (k : Int) < (COLS : Int))) :
    mergeCellStep col px ny g (k, bcell) = g := by
  unfold mergeCellStep
  cases bcell
  · rw [if_neg]
    exact Bool.noConfusion
  · rw [if_pos rfl, if_neg h]

/-- Cell-level effect of `mergePiece`'s inner loop over one matrix row. -/
theorem cellOf_cellFold (col : String) (px ny : Int) (row : List Bool) :
    ∀ (k : Nat) (g : Grid), wfGrid g → ∀ (r c : Nat), r < ROWS → c < COLS →
      cellOf ((List.enumFrom k row).foldl (mergeCellStep col px ny) g) r c =
        if ∃ xx, xx < row.length ∧ row.getD xx false = true ∧
            ny = (r : Int) ∧ px + ((k + xx : Nat) : Int) = (c : Int)
        then some col else cellOf g r c := by
  induction row with
  | nil =>
    intro k g hwf r c hr hc
    rw [if_neg]
    · rfl
    · rintro ⟨xx, hxx, _⟩
      simp at hxx
  | cons bcell rest ih =>
    intro k g hwf r c hr hc
    rw [show List.enumFrom k (bcell :: rest)
        = (k, bcell) :: List.enumFrom (k + 1) rest from rfl, List.foldl_cons]
    have hwf2 : wfGrid (mergeCellStep col px ny g (k, bcell)) :=
      wf_mergeCellStep col px ny g (k, bcell) hwf
    rw [ih (k + 1) _ hwf2 r c hr hc]
    have hr20 : r < 20 := hr
    have hc10 : c < 10 := hc
    by_cases hrest : ∃ xx, xx < rest.length ∧ rest.getD xx false = true ∧
        ny = (r : Int) ∧ px + ((k + 1 + xx : Nat) : Int) = (c : Int)
    · rw [if_pos hrest, if_pos ?hfull1]
      case hfull1 =>
        obtain ⟨xx, h1, h2, h3, h4⟩ := hrest
        refine ⟨xx + 1, by simpa using h1, by simpa using h2, h3, ?_⟩
        push_cast at h4 ⊢
        omega
    · rw [if_neg hrest]
      by_cases hhead : bcell = true ∧ ny = (r : Int) ∧ px + (k : Int) = (c : Int)
      · obtain ⟨hb, hny, hpx⟩ := hhead
        rw [if_pos ?hfull2]
        case hfull2 =>
          refine ⟨0, by simp, by simpa using hb, hny, ?_⟩
          simpa using hpx
        have hbounds : 0 ≤ ny ∧ ny < (ROWS : Int) ∧
            0 ≤ px + (k : Int) ∧ px + (k : Int) < (COLS : Int) := by
          refine ⟨by omega, by omega, by omega, by omega⟩
        rw [mergeCellStep_write col px ny g k bcell hb hbounds]
        rw [cellOf_setCell]
        rw [if_pos ?hits]
        case hits =>
          have e1 : ny.toNat = r := by omega
          have e2 : (px + (k : Int)).toNat = c := by omega
          refine ⟨e1, e2, ?_, ?_⟩
          · rw [e1, hwf.1]; exact hr
          · rw [e1, e2, wf_row_len g hwf r hr]; exact hc
      · rw [if_neg ?hfull3]
        case hfull3 =>
          rintro ⟨xx, hxx, hget, hny2, hpx2⟩
          cases xx with
          | zero =>
            refine hhead ⟨by simpa using hget, hny2, ?_⟩
            simpa using hpx2
          | succ x2 =>
            refine hrest ⟨x2, by simpa using hxx, by simpa using hget, hny2, ?_⟩
            push_cast at hpx2 ⊢
            omega
        cases hbc : bcell with
        | false =>
          rw [mergeCellStep_skip col px ny g k]
        | true =>
          by_cases hbounds : 0 ≤ ny ∧ ny < (ROWS : Int) ∧
              0 ≤ px + (k : Int) ∧ px + (k : Int) < (COLS : Int)
          · rw [mergeCellStep_write col px ny g k true rfl hbounds]
            rw [cellOf_setCell]
            rw [if_neg ?hmiss]
            case hmiss =>
              rintro ⟨h1, h2, h3, h4⟩
              refine hhead ⟨hbc, ?_, ?_⟩ <;> omega
          · rw [mergeCellStep_oob col px ny g k true hbounds]

/-- Cell-level effect of `mergePiece`'s outer loop over the matrix rows. -/
theorem cellOf_rowFold (col : String) (px py : Int) (m : PMatrix) :
    ∀ (k : Nat) (g : Grid), wfGrid g → ∀ (r c : Nat), r < ROWS → c < COLS →
      cellOf ((List.enumFrom k m).foldl (mergeRowStep col px py) g) r c =
        if ∃ yy, yy < m.length ∧ ∃ xx, xx < (m.getD yy []).length ∧
            (m.getD yy []).getD xx false = true ∧
            py + ((k + yy : Nat) : Int) = (r : Int) ∧ px + (xx : Int) = (c : Int)
        then some col else cellOf g r c := by
  induction m with
  | nil =>
    intro k g hwf r c hr hc
    rw [if_neg]
    · rfl
    · rintro ⟨yy, hyy, _⟩
      simp at hyy
  | cons row rest ih =>
    intro k g hwf r c hr hc
    rw [show List.enumFrom k (row :: rest)
        = (k, row) :: List.enumFrom (k + 1) rest from rfl, List.foldl_cons]
    have hwf2 : wfGrid (mergeRowStep col px py g (k, row)) :=
      wf_mergeRowStep col px py g (k, row) hwf
    rw [ih (k + 1) _ hwf2 r c hr hc]
    by_cases hrest : ∃ yy, yy < rest.length ∧ ∃ xx, xx < (rest.getD yy []).length ∧
        (rest.getD yy []).getD xx false = true ∧
        py + ((k + 1 + yy : Nat) : Int) = (r : Int) ∧ px + (xx : Int) = (c : Int)
    · rw [if_pos hrest, if_pos ?hout1]
      case hout1 =>
        obtain ⟨yy, h1, xx, h2, h3, h4, h5⟩ := hrest
        refine ⟨yy + 1, by simpa using h1, xx, by simpa using h2, by simpa using h3,
          ?_, h5⟩
        push_cast at h4 ⊢
        omega
    · rw [if_neg hrest]
      rw [show mergeRowStep col px py g (k, row)
          = (List.enumFrom 0 row).foldl (mergeCellStep col px (py + (k : Int))) g
          from rfl]
      rw [cellOf_cellFold col px (py + (k : Int)) row 0 g hwf r c hr hc]
      by_cases hhead : ∃ xx, xx < row.length ∧ row.getD xx false = true ∧
          py + (k : Int) = (r : Int) ∧ px + ((0 + xx : Nat) : Int) = (c : Int)
      · rw [if_pos hhead, if_pos ?hout2]
        case hout2 =>
          obtain ⟨xx, h1, h2, h3, h4⟩ := hhead
          refine ⟨0, by simp, xx, by simpa using h1, by simpa using h2, ?_, ?_⟩
          · simpa using h3
          · push_cast at h4 ⊢
            omega
      · rw [if_neg hhead, if_neg ?hout3]
        case hout3 =>
          rintro ⟨yy, hyy, xx, hxx, hget, hny2, hpx2⟩
          cases yy with
          | zero =>
            refine hhead ⟨xx, by simpa using hxx, by simpa using hget, ?_, ?_⟩
            · simpa using hny2
            · push_cast at hpx2 ⊢
              omega
          | succ y2 =>
            refine hrest ⟨y2, by simpa using hyy, xx, by simpa using hxx,
              by simpa using hget, ?_, hpx2⟩
            push_cast at hny2 ⊢
            omega

/-! ### Claim C2 — clearing full rows -/

/-- C2: on a well-formed grid, `clearLines` keeps exactly the non-full rows
in their original order, pushes them to the bottom below as many fresh empty
rows as there were full rows, and reports that number; with no full row the
input is returned unchanged with count 0.  The concrete instance of the
claim — rows 3 and 7 fully filled, every other row partially filled — loses
exactly those two rows, the rest shifting down below two new empty rows,
with a count of 2. -/
theorem claim_C2_clear_full_rows :
    (∀ b : Grid, b.length = ROWS →
        (clearLines b).1 =
          List.replicate ((b.filter rowFull).length) emptyRow ++
            b.filter (fun row => !(rowFull row)) ∧
        (clearLines b).2 = (b.filter rowFull).length ∧
        ((b.filter rowFull).length = 0 → clearLines b = (b, 0))) ∧
    clearLines gRows37 =
      (List.replicate 2 emptyRow ++ List.replicate 18 partRow, 2) := by
  constructor
  · intro b hb
    have hrows_eq : (List.range ROWS).filter (fun y => rowFull (b.getD y []))
        = (b.enum.filter fun pr => rowFull pr.2).map Prod.fst := by
      rw [← hb]
      exact range_filter_getD_eq rowFull [] b
    have hrows_len : ((List.range ROWS).filter fun y => rowFull (b.getD y [])).length
        = (b.filter rowFull).length := by
      rw [hrows_eq, List.length_map, ← enum_filter_map_snd rowFull b, List.length_map]
    have hnb : ((b.enum.filter fun pr =>
        !(((List.range ROWS).filter fun y =>
          rowFull (b.getD y [])).contains pr.1)).map Prod.snd)
        = b.filter fun row => !(rowFull row) := by
      rw [← hb]
      exact clearLines_kept_rows b
    have hsum : b.length =
        (b.filter rowFull).length + (b.filter fun row => !(rowFull row)).length :=
      List.length_eq_length_filter_add rowFull
    simp only [clearLines]
    by_cases h0 : ((List.range ROWS).filter fun y => rowFull (b.getD y [])).length = 0
    · rw [if_pos h0]
      have hfl : (b.filter rowFull).length = 0 := by omega
      have hflnil : b.filter rowFull = [] := List.length_eq_zero.mp hfl
      have hnone : ∀ row ∈ b, ¬(rowFull row = true) := List.filter_eq_nil_iff.mp hflnil
      have hself : b.filter (fun row => !(rowFull row)) = b := by
        apply List.filter_eq_self.mpr
        intro row hrow
        cases hfr : rowFull row
        · rfl
        · exact absurd hfr (hnone row hrow)
      rw [hfl, hself]
      exact ⟨by simp, rfl, fun _ => rfl⟩
    · rw [if_neg h0]
      rw [show ((b.enum.filter fun pr =>
          !(((List.range ROWS).filter fun y =>
            rowFull (b.getD y [])).contains pr.1)).map Prod.snd).length
          = (b.filter fun row => !(rowFull row)).length from by rw [hnb]]
      rw [hnb, hrows_len]
      have hcount : ROWS - (b.filter fun row => !(rowFull row)).length
          = (b.filter rowFull).length := by omega
      rw [hcount]
      refine ⟨rfl, rfl, fun hzero => ?_⟩
      omega
  · decide

/-- Witness for C2: the general characterization applied to the concrete
claim grid (rows 3 and 7 full). -/
theorem claim_C2_clear_full_rows_witness :
    (clearLines gRows37).1 =
      List.replicate ((gRows37.filter rowFull).length) emptyRow ++
        gRows37.filter (fun row => !(rowFull row)) ∧
    (clearLines gRows37).2 = (gRows37.filter rowFull).length ∧
    ((gRows37.filter rowFull).length = 0 → clearLines gRows37 = (gRows37, 0)) :=
  claim_C2_clear_full_rows.1 gRows37 (by decide)

/-! ### Claim C3 — rotation transform and kick resolution -/

/-- C3: the clockwise matrix rotation equals the spec's
transpose-and-reverse-rows transform, the counter-clockwise rotation is its
inverse (on the nonempty rectangular matrices pieces have), and `rotate`
applies the rotation to the *current* matrix and adopts the first offset of
the fixed kick order `{0, -1, +1, -2, +2}` whose candidate does not
collide — leaving the piece's matrix and position unchanged when every
offset collides. -/
theorem claim_C3_rotation_with_kicks :
    (∀ m : PMatrix, rotateMatrixCW m = specRotCW m) ∧
    (∀ (m : PMatrix) (h w : Nat), 0 < h → 0 < w → rect m h w →
        rotateMatrixCCW (rotateMatrixCW m) = m) ∧
    (∀ (rotFn : PMatrix → PMatrix) (b : Grid) (p : Piece),
        rotate rotFn b p =
          ((KICKS.find? fun dx => !(collides b (candidate p (rotFn p.m) dx))).elim
            p (candidate p (rotFn p.m)))) ∧
    (∀ (rotFn : PMatrix → PMatrix) (b : Grid) (p : Piece),
        (∀ dx ∈ KICKS, collides b (candidate p (rotFn p.m) dx) = true) →
        rotate rotFn b p = p) := by
  refine ⟨rotCW_eq_spec, rotCCW_rotCW, ?_, ?_⟩
  · intro rotFn b p
    exact rotateTry_eq_find b p (rotFn p.m) KICKS
  · intro rotFn b p hall
    have hnone : (KICKS.find? fun dx => !(collides b (candidate p (rotFn p.m) dx)))
        = none := by
      rw [List.find?_eq_none]
      intro dx hdx
      simp [hall dx hdx]
    rw [show rotate rotFn b p = rotateTry b p (rotFn p.m) KICKS from rfl]
    rw [rotateTry_eq_find b p (rotFn p.m) KICKS, hnone]
    rfl

/-- Witness for C3 at concrete inputs: the T spawn matrix (2×3,
rectangular) rotates to its spec transform and back, and on a fully filled
board every kick candidate collides so rotating the spawned T piece leaves
it unchanged. -/
theorem claim_C3_rotation_with_kicks_witness :
    rotateMatrixCW (TETROMINOES .T).m = specRotCW (TETROMINOES .T).m ∧
    rotateMatrixCCW (rotateMatrixCW (TETROMINOES .T).m) = (TETROMINOES .T).m ∧
    rotate rotateMatrixCW fullBoard (spawnPieceOf .T) = spawnPieceOf .T :=
  ⟨claim_C3_rotation_with_kicks.1 (TETROMINOES .T).m,
   claim_C3_rotation_with_kicks.2.1 (TETROMINOES .T).m 2 3 (by decide) (by decide)
     (by constructor <;> decide),
   claim_C3_rotation_with_kicks.2.2.2 rotateMatrixCW fullBoard (spawnPieceOf .T)
     (by decide)⟩

/-! ### Claim C4 — scoring and level progression at lock time -/

/-- C4: at every lock event the score gained for clearing `n` rows is the
table value (100/300/500/800 for 1/2/3/4+ rows, 0 for none) times the level
read before the lock's level recompute; `lines` grows by `n`; and whenever
the level satisfies its defining formula before the lock, it equals
`1 + floor(totalLines / 10)` for the updated line count afterwards (for
`0 < n` the code recomputes it outright, with no hypothesis needed).  In
particular clearing 2 rows at level 3 adds 900 and clearing 0 rows adds 0. -/
theorem claim_C4_scoring :
    (∀ (pr : Progress) (n : Nat),
        (lockProgress pr n).score = pr.score + scoreFor pr.level n ∧
        (lockProgress pr n).lines = pr.lines + n ∧
        (0 < n → (lockProgress pr n).level = 1 + (pr.lines + n) / 10) ∧
        (pr.level = 1 + pr.lines / 10 →
          (lockProgress pr n).level = 1 + (lockProgress pr n).lines / 10)) ∧
    (∀ lvl : Nat,
        scoreFor lvl 0 = 0 ∧ scoreFor lvl 1 = 100 * lvl ∧
        scoreFor lvl 2 = 300 * lvl ∧ scoreFor lvl 3 = 500 * lvl ∧
        ∀ n : Nat, 4 ≤ n → scoreFor lvl n = 800 * lvl) ∧
    (∀ pr : Progress, pr.level = 3 →
        (lockProgress pr 2).score = pr.score + 900) ∧
    (∀ pr : Progress, (lockProgress pr 0).score = pr.score) := by
  refine ⟨fun pr n => ⟨?_, ?_, ?_, ?_⟩, fun lvl => ⟨?_, ?_, ?_, ?_, fun n h4 => ?_⟩,
    fun pr h3 => ?_, fun pr => ?_⟩
  · rcases Nat.eq_zero_or_pos n with h | h
    · subst h; simp [lockProgress, scoreFor]
    · simp [lockProgress, h]
  · rcases Nat.eq_zero_or_pos n with h | h
    · subst h; simp [lockProgress]
    · simp [lockProgress, h]
  · intro h; simp [lockProgress, h]
  · intro hlv
    rcases Nat.eq_zero_or_pos n with h | h
    · subst h; simpa [lockProgress] using hlv
    · simp [lockProgress, h]
  · simp [scoreFor]
  · simp [scoreFor]
  · simp [scoreFor]
  · simp [scoreFor]
  · have h1 : n ≠ 1 := by omega
    have h2 : n ≠ 2 := by omega
    have h3 : n ≠ 3 := by omega
    simp [scoreFor, h1, h2, h3, h4]
  · have : scoreFor pr.level 2 = 900 := by simp [scoreFor, h3]
    simp [lockProgress, this]
  · simp [lockProgress, scoreFor]

/-- Witness for C4 at concrete inputs: locking 5 cleared rows on
`score = 100, lines = 9, level = 1` adds `scoreFor 1 5` and moves the level
to `1 + 14/10 = 2`; `scoreFor 7 9 = 800·7`; clearing 2 rows at level 3 adds
900; clearing 0 rows adds 0. -/
theorem claim_C4_scoring_witness :
    (lockProgress ⟨100, 9, 1⟩ 5).score = 100 + scoreFor 1 5 ∧
    (lockProgress ⟨100, 9, 1⟩ 5).level = 1 + (9 + 5) / 10 ∧
    scoreFor 7 9 = 800 * 7 ∧
    (lockProgress ⟨50, 0, 3⟩ 2).score = 50 + 900 ∧
    (lockProgress ⟨50, 0, 3⟩ 0).score = 50 :=
  ⟨(claim_C4_scoring.1 ⟨100, 9, 1⟩ 5).1,
   (claim_C4_scoring.1 ⟨100, 9, 1⟩ 5).2.2.1 (by decide),
   (claim_C4_scoring.2.1 7).2.2.2.2 9 (by decide),
   claim_C4_scoring.2.2.1 ⟨50, 0, 3⟩ rfl,
   claim_C4_scoring.2.2.2 ⟨50, 0, 3⟩⟩

/-! ### Claim C5 — GameOver is not terminal under TogglePause -/

/-- C5 (refuting evaluation): spawning a T-piece onto a grid whose cell
(0,4) is filled puts the game in its game-over state (`running = false`,
the colliding piece still active), and then a single TogglePause (`KeyP`)
command flips `running` back to `true`: the code resumes a finished game,
while the claim says only Restart may leave GameOver. -/
theorem claim_C5_gameover_keyp_resumes :
    (spawn ORDER sGameOver0).running = false ∧
    (spawn ORDER sGameOver0).active = some (spawnPieceOf .T) ∧
    collides (spawn ORDER sGameOver0).board (spawnPieceOf .T) = true ∧
    (pressKeyP (spawn ORDER sGameOver0)).running = true := by
  decide

/-! ### Claim C6 — vertical I against the right wall, rotated CW -/

/-- C6: the vertical I-piece (the CW rotation of the spawn I matrix) flush
against the right wall of an empty board needs a 3-column left shift for the
horizontal I to fit, which no offset in the fixed kick order
`{0, -1, +1, -2, +2}` provides: every kick candidate collides, so — exactly
as the claim's fallback clause states — the rotation leaves the matrix and
the position unchanged. -/
theorem claim_C6_right_wall_I_rotation :
    rotateMatrixCW (TETROMINOES .I).m = pIvert.m ∧
    (∀ dx ∈ KICKS,
        collides emptyBoard (candidate pIvert (rotateMatrixCW pIvert.m) dx) = true) ∧
    rotate rotateMatrixCW emptyBoard pIvert = pIvert := by
  decide

/-! ### Claim C7 — O-piece hard drop lands centered, not bottom-left -/

/-- C7 (counterexample): after spawning the O-piece on an empty board and
hard-dropping it, the bottom-left 2×2 region (rows 18–19, columns 0–1) is
empty — the four piece cells sit at columns 4–5 instead, so the claim's
"bottom-left" placement is false on the code. -/
theorem claim_C7_counterexample :
    cellOf (hardDrop ORDER (spawn ORDER sDropO0)).board 19 0 = none ∧
    cellOf (hardDrop ORDER (spawn ORDER sDropO0)).board 19 1 = none ∧
    cellOf (hardDrop ORDER (spawn ORDER sDropO0)).board 18 0 = none ∧
    cellOf (hardDrop ORDER (spawn ORDER sDropO0)).board 18 1 = none ∧
    cellOf (hardDrop ORDER (spawn ORDER sDropO0)).board 19 4 = some "#F7D154" := by
  decide

/-- C7 (amended): the O-piece spawns centered at column
`floor((10-2)/2) = 4`, so the hard drop leaves its four cells at rows 18–19,
columns 4–5 — the bottom two rows at the centered spawn columns — with every
other cell empty and zero lines cleared. -/
theorem claim_C7_amended_o_drop :
    (hardDrop ORDER (spawn ORDER sDropO0)).board = expectedOGrid ∧
    (hardDrop ORDER (spawn ORDER sDropO0)).lines = 0 ∧
    (clearLines (mergePiece emptyBoard { spawnPieceOf .O with y := 18 })).2 = 0 := by
  decide

/-! ### Claim C9 — merge writes the piece cells and nothing else -/

/-- C9: on a well-formed grid, `mergePiece` returns a well-formed grid in
which every cell covered by an occupied piece cell (necessarily in-bounds
and at a non-negative row, the coordinates being grid coordinates) holds the
piece's color and every other cell holds exactly its old value — the
functional rendering of "returns a new grid, input not mutated": the input
`b` is untouched and the output agrees with it off the piece. -/
theorem claim_C9_merge_frame :
    ∀ (b : Grid) (p : Piece), wfGrid b →
      wfGrid (mergePiece b p) ∧
      ∀ r c : Nat, r < ROWS → c < COLS →
        cellOf (mergePiece b p) r c =
          if coveredBy p r c then some p.c else cellOf b r c := by
  intro b p hwf
  constructor
  · exact wf_foldl _ (fun g x hg => wf_mergeRowStep p.c p.x p.y g x hg)
      p.m.enum b hwf
  · intro r c hr hc
    have h := cellOf_rowFold p.c p.x p.y p.m 0 b hwf r c hr hc
    rw [show mergePiece b p
        = (List.enumFrom 0 p.m).foldl (mergeRowStep p.c p.x p.y) b from rfl, h]
    apply if_congr ?_ rfl rfl
    constructor
    · rintro ⟨yy, h1, xx, h2, h3, h4, h5⟩
      exact ⟨yy, h1, xx, h2, h3, by simpa using h4, h5⟩
    · rintro ⟨yy, h1, xx, h2, h3, h4, h5⟩
      exact ⟨yy, h1, xx, h2, h3, by simpa using h4, h5⟩

/-- Witness for C9: merging the landed O-piece into the empty board writes
its color at a covered cell (row 19, column 4) and leaves an uncovered cell
(row 19, column 0) at its old empty value. -/
theorem claim_C9_merge_frame_witness :
    wfGrid emptyBoard ∧
    cellOf (mergePiece emptyBoard pO18) 19 4 =
      (if coveredBy pO18 19 4 then some pO18.c else cellOf emptyBoard 19 4) ∧
    cellOf (mergePiece emptyBoard pO18) 19 0 =
      (if coveredBy pO18 19 0 then some pO18.c else cellOf emptyBoard 19 0) ∧
    coveredBy pO18 19 4 ∧ ¬coveredBy pO18 19 0 ∧
    cellOf (mergePiece emptyBoard pO18) 19 4 = some "#F7D154" ∧
    cellOf (mergePiece emptyBoard pO18) 19 0 = none :=
  ⟨by decide,
   (claim_C9_merge_frame emptyBoard pO18 (by decide)).2 19 4 (by decide) (by decide),
   (claim_C9_merge_frame emptyBoard pO18 (by decide)).2 19 0 (by decide) (by decide),
   by decide, by decide, by decide, by decide⟩

/-! ### Claim C10 — hold swap skips the collision check -/

/-- C10: whenever the hold slot holds a kind `k` and the hold lock is not
set, `doHold` unconditionally swaps `k` in at its centered spawn placement
with the canonical spawn matrix — no collision test, `running` untouched —
so the swap can never trigger game over; on a fully filled board the
swapped-in piece overlaps filled cells while `running` stays `true`, whereas
the normal spawn path on the same board declares game over. -/
theorem claim_C10_hold_swap_unchecked :
    (∀ (fb : List PieceKind) (s : GameState) (p : Piece) (k : PieceKind),
        s.canHold = true → s.active = some p → s.hold = some k →
        doHold fb s =
          { s with hold := some p.k, active := some (spawnPieceOf k),
                   canHold := false }) ∧
    ((doHold ORDER sHoldBlocked).running = true ∧
      (doHold ORDER sHoldBlocked).active = some (spawnPieceOf .I) ∧
      collides sHoldBlocked.board (spawnPieceOf .I) = true ∧
      (spawn ORDER sHoldBlocked).running = false) := by
  constructor
  · intro fb s p k hc ha hh
    rcases s with ⟨board, active, queue, nextBag, running, score, lines, level, hold, canHold⟩
    simp only at hc ha hh
    subst hc ha hh
    simp [doHold]
  · decide

/-- Witness for C10: applying the universal part to the concrete blocked
state swaps the held I-piece in while leaving `running` alone. -/
theorem claim_C10_hold_swap_unchecked_witness :
    doHold ORDER sHoldBlocked =
      { sHoldBlocked with hold := some PieceKind.T,
                          active := some (spawnPieceOf .I), canHold := false } :=
  claim_C10_hold_swap_unchecked.1 ORDER sHoldBlocked (spawnPieceOf .T) .I rfl rfl rfl

end Tetris
